import Mathlib

/-!
Shallow embedding of the SEO-analyzer web application: the readability
estimator (`countSyllables`, `calculateReadabilityScore`,
`getFleschReadingEase`, `getReadabilityLevel`), the match
classifier/grouper (`MatchesSep`, `joinMatches`, the `handleFix` map
insertion), and the `/api/analyze` request handler (`analyzePOST`).
Strings are modelled as `List Char` (the inputs of interest are ASCII);
JavaScript numbers are modelled as `ℚ`, with a JS division by zero (which
yields an Infinity, a non-finite number) modelled as `none : Option ℚ`.
-/

/- ### JavaScript string primitives used by the source -/

/-- Whitespace recognised by JS `trim` and the regex `\s`, restricted to
ASCII: space, tab, line feed, vertical tab, form feed, carriage return. -/
def isJsWS (c : Char) : Bool := [' ', '\t', '\n', '\x0B', '\x0C', '\r'].contains c

/-- JS `String.prototype.trim`: drop leading and trailing whitespace. -/
def jsTrim (l : List Char) : List Char :=
  ((l.dropWhile isJsWS).reverse.dropWhile isJsWS).reverse

/-- The non-empty fragments of splitting on maximal runs of delimiter
characters: `text.split(/[D]+/).filter(Boolean)` for a character class `D`.
Each returned fragment is a maximal run of non-delimiter characters. -/
def splitRuns (p : Char → Bool) : List Char → List (List Char)
  | [] => []
  | c :: cs =>
    let r := splitRuns p cs
    if p c then r
    else
      match cs with
      | [] => [[c]]
      | d :: _ =>
        if p d then [c] :: r
        else
          match r with
          | [] => [[c]]
          | g :: gs => (c :: g) :: gs

/-- Sentence delimiters of the readability estimator: `.`, `!`, `?`. -/
def isSentenceDelim (c : Char) : Bool := ['.', '!', '?'].contains c

/-- `text.split(/[.!?]+/).filter(Boolean)`: the sentence fragments. -/
def jsSentences (text : List Char) : List (List Char) :=
  splitRuns isSentenceDelim text

/-- `text.trim().split(/\s+/)`: the word tokens. On a whitespace-only
input JS returns `[""]` (one empty token), modelled as `[[]]`. -/
def jsTrimSplitWS (text : List Char) : List (List Char) :=
  let t := jsTrim text
  if t = [] then [[]] else splitRuns isJsWS t

/-- `String.prototype.toLowerCase` on an ASCII character. -/
def asciiToLower (c : Char) : Char :=
  if 'A' ≤ c ∧ c ≤ 'Z' then Char.ofNat (c.toNat + 32) else c

/- ### Syllable counting (InputContent.tsx) -/

/-- Membership in the character class `laeiouy` of the suffix-stripping
regex (its complement is `[^laeiouy]`). -/
def isLV (c : Char) : Bool := ['l', 'a', 'e', 'i', 'o', 'u', 'y'].contains c

/-- A vowel-or-y character, the class `[aeiouy]`. -/
def isVowelY (c : Char) : Bool := ['a', 'e', 'i', 'o', 'u', 'y'].contains c

/-- `word.replace(/(?:[^laeiouy]es|ed|[^laeiouy]e)$/, '')`: the regex is
anchored at the end and the leftmost match wins, so a 3-character
`[^laeiouy]es` suffix is removed first, else an `ed` suffix, else a
2-character `[^laeiouy]e` suffix; the matched characters (including the
leading non-vowel one) are removed. Computed on the reversed word. -/
def stripSuffix (w : List Char) : List Char :=
  (match w.reverse with
   | 's' :: 'e' :: c :: rest => if isLV c then w.reverse else rest
   | 'd' :: 'e' :: rest => rest
   | 'e' :: c :: rest => if isLV c then w.reverse else rest
   | r => r).reverse

/-- `word.replace(/^y/, '')`: drop one leading `y`. -/
def stripLeadingY : List Char → List Char
  | 'y' :: rest => rest
  | w => w

/-- `word.match(/[aeiouy]{1,2}/g)` match count: the greedy regex takes the
maximal vowel runs two characters at a time, so a run of length `k`
contributes `⌈k / 2⌉` matches. -/
def syllableMatches (w : List Char) : Nat :=
  ((splitRuns (fun c => !isVowelY c) w).map (fun r => (r.length + 1) / 2)).sum

/-- InputContent.tsx lines 487-493: the `countSyllables` variant used by
`calculateReadabilityScore`; it has no short-word rule. -/
def countSyllablesV2 (w : List Char) : Nat :=
  let word := w.map asciiToLower
  let word := stripLeadingY (stripSuffix word)
  let n := syllableMatches word
  if n = 0 then 1 else n

/-- InputContent.tsx lines 882-889: the `countSyllables` variant used by
`getFleschReadingEase`; a word of length at most 3 counts as 1 syllable. -/
def countSyllables (w : List Char) : Nat :=
  let word := w.map asciiToLower
  if word.length ≤ 3 then 1
  else
    let word2 := stripLeadingY (stripSuffix word)
    let n := syllableMatches word2
    if n = 0 then 1 else n

/- ### Readability score (InputContent.tsx) -/

/-- Division of two JS numbers that are naturals: `b = 0` gives a JS
Infinity, a non-finite result, modelled as `none`. -/
def natDiv? (a b : Nat) : Option ℚ :=
  if b = 0 then none else some ((a : ℚ) / (b : ℚ))

/-- `Number(score.toFixed(1))`: round to one decimal place (JS rounds to
the nearest representable; ties are immaterial to the claims). -/
def toFixed1 (q : ℚ) : ℚ := ((round (q * 10) : ℤ) : ℚ) / 10

/-- InputContent.tsx lines 495-507: the Flesch reading-ease score. The
sentence count is NOT floored: a text whose sentence split is empty makes
`words.length / sentences.length` a division by zero. -/
def calculateReadabilityScore (text : List Char) : Option ℚ :=
  if jsTrim text = [] then some 0
  else
    let sentences := jsSentences text
    let words := jsTrimSplitWS text
    let totalSyllables := (words.map countSyllablesV2).sum
    match natDiv? words.length sentences.length,
          natDiv? totalSyllables words.length with
    | some wordsPerSentence, some syllablesPerWord =>
        some (toFixed1 (206.835 - 1.015 * wordsPerSentence - 84.6 * syllablesPerWord))
    | _, _ => none

/-- InputContent.tsx lines 891-898: the Flesch reading-ease variant whose
denominators are floored (`sentences || 1`, `words.length || 1`). -/
def getFleschReadingEase (text : List Char) : Option ℚ :=
  let sentences := (jsSentences text).length
  let words := jsTrimSplitWS text
  let syllables := (words.map countSyllables).sum
  match natDiv? words.length (if sentences = 0 then 1 else sentences),
        natDiv? syllables (if words.length = 0 then 1 else words.length) with
  | some asl, some asw => some (206.835 - 1.015 * asl - 84.6 * asw)
  | _, _ => none

/-- The `level`/`color` pair `getReadabilityLevel` returns. -/
structure ReadabilityLevel where
  level : String
  color : String
deriving DecidableEq

/-- InputContent.tsx lines 509-517: qualitative readability band. -/
def getReadabilityLevel (score : ℚ) : ReadabilityLevel :=
  if score ≥ 90 then ⟨"Very Easy", "text-green-500"⟩
  else if score ≥ 80 then ⟨"Easy", "text-emerald-500"⟩
  else if score ≥ 70 then ⟨"Fairly Easy", "text-blue-500"⟩
  else if score ≥ 60 then ⟨"Standard", "text-yellow-500"⟩
  else if score ≥ 50 then ⟨"Fairly Difficult", "text-orange-500"⟩
  else if score ≥ 30 then ⟨"Difficult", "text-red-500"⟩
  else ⟨"Very Difficult", "text-red-600"⟩

/- ### Match data model (InputContent.tsx) -/

/-- A candidate replacement of a `Match`. -/
structure Replacement where
  value : String
deriving DecidableEq

/-- The enclosing sentence/context of a `Match`. -/
structure MatchContext where
  text : String
deriving DecidableEq

/-- A flagged span as returned by the grammar-check service. -/
structure Match where
  message : String
  shortMessage : String
  replacements : List Replacement
  offset : Nat
  length : Nat
  context : MatchContext
deriving DecidableEq

/-- The correlation key of a `Match`:
`` `${match.offset}-${match.length}-${match.message.substring(0, 20)}` ``. -/
def matchKey (m : Match) : String :=
  toString m.offset ++ "-" ++ toString m.length ++ "-" ++ m.message.take 20

/-- The `fixedMatches` React state, `Record<string, boolean>`: a JS key
lookup `fixedMatches[k]` is falsy when the key is absent (the component
only ever stores `true`), so the map is modelled as its lookup function. -/
def FixedMatchesMap : Type := String → Bool

/-- InputContent.tsx lines 143-144 (`handleFix`): insert the match's key,
`setFixedMatches(prev => (...prev, [matchKey]: true))`. -/
def insertKey (fixedMatches : FixedMatchesMap) (key : String) : FixedMatchesMap :=
  fun s => if s = key then true else fixedMatches s

/-- InputContent.tsx lines 159-174: partition the matches into the
`corrections` and `suggestions` buckets; a match with exactly one
replacement whose key is not in `fixedMatches` is a correction. The
`forEach`/`push` loop keeps the input order in each bucket. -/
def MatchesSep (fixedMatches : FixedMatchesMap) : List Match → List Match × List Match
  | [] => ([], [])
  | m :: ms =>
    let rest := MatchesSep fixedMatches ms
    if m.replacements.length == 1 && !fixedMatches (matchKey m)
    then (m :: rest.1, rest.2)
    else (rest.1, m :: rest.2)

/-- One step of the `joinMatches` loop: push the match into its sentence's
group if the key `match.context.text` is already in `sentenceMap`, else
append a new singleton group (JS string-keyed objects keep insertion
order, modelled as an association list). -/
def insertJoin (acc : List (String × List Match)) (m : Match) :
    List (String × List Match) :=
  if (acc.map Prod.fst).contains m.context.text then
    acc.map (fun q => if q.1 == m.context.text then (q.1, q.2 ++ [m]) else q)
  else
    acc ++ [(m.context.text, [m])]

/-- InputContent.tsx lines 176-188: group matches by their enclosing
sentence text. -/
def joinMatches (ms : List Match) : List (String × List Match) :=
  ms.foldl insertJoin []

/-- Specification-side form of the grouping (compared with `joinMatches`):
the distinct sentence texts in first-seen order. -/
def firstKeys (ms : List Match) : List String :=
  ms.foldl
    (fun ks m => if m.context.text ∈ ks then ks else ks ++ [m.context.text]) []

/-- Specification-side form of the grouping: each first-seen sentence
paired with its matches in input order. -/
def groupSpec (ms : List Match) : List (String × List Match) :=
  (firstKeys ms).map
    (fun s => (s, ms.filter (fun m => m.context.text == s)))

/- ### The analyze request handler (src/app/api/analyze/route.ts) -/

/-- What the handler reads off a rejected axios call: the upstream
response's HTTP status and `data.message`, when a response exists. -/
structure AxiosErrorModel where
  status : Option Nat
  message : Option String
deriving DecidableEq

/-- The request body once `inputSchema` accepted it. -/
structure ParsedInput where
  content : String
  language : Option String
deriving DecidableEq

/-- Modelled from the spec: `inputSchema` (src/schema/inputSchema, a file
the repository snapshot does not include) validates the request body,
requiring `content` to be a non-empty string; `language` is an optional
string ("Both validate input against a schema requiring non-empty
content"). -/
def inputSchemaParse (content? language? : Option String) : Option ParsedInput :=
  match content? with
  | none => none
  | some c => if c.isEmpty then none else some ⟨c, language?⟩

/-- route.ts line 29: the languages the handler forwards unchanged. -/
def supportedLanguages : List String := ["en", "de", "fr", "es", "it"]

/-- route.ts lines 27-30: `language = 'en'` destructuring default, then
`supportedLanguages.includes(language) ? language : 'en'`. -/
def effectiveLang (language? : Option String) : String :=
  let language := language?.getD "en"
  if supportedLanguages.contains language then language else "en"

/-- `Promise.all` of two settled outcomes: fulfils with the pair when both
fulfil, otherwise rejects. (In JS the rejection reason is the temporally
first rejection; when both reject the model takes the first argument's
reason — timing is outside the model, and no claim depends on it.) -/
def promiseAll {α β : Type} :
    Except AxiosErrorModel α → Except AxiosErrorModel β →
    Except AxiosErrorModel (α × β)
  | Except.ok a, Except.ok b => Except.ok (a, b)
  | Except.error e, _ => Except.error e
  | Except.ok _, Except.error e => Except.error e

/-- JS `x || d` for an optional number (a missing or zero status falls
back to the default): `axiosError.response?.status || 500`. -/
def jsOrNat (x : Option Nat) (d : Nat) : Nat :=
  match x with
  | some v => if v = 0 then d else v
  | none => d

/-- JS `x || d` for an optional string (a missing or empty message falls
back to the default). -/
def jsOrString (x : Option String) (d : String) : String :=
  match x with
  | some v => if v = "" then d else v
  | none => d

/-- The JSON response of the handler together with its HTTP status. -/
structure RouteResponse where
  success : Bool
  status : Nat
  message : Option String
  error : Option String
  embedding : Option (List ℚ)
  corrections : Option (List Match)
deriving DecidableEq

/-- route.ts lines 14-95 (`POST`): validate the body, fan out the two
upstream calls (their settled outcomes are the model's inputs: the Cohere
payload is its `embeddings` array, the LanguageTool payload its `matches`
array), and translate a rejection in the catch block. `embeddings[0]` on
an empty array is `undefined`, i.e. an absent field. -/
def analyzePOST (content? language? : Option String)
    (cohereResult : Except AxiosErrorModel (List (List ℚ)))
    (ltResult : Except AxiosErrorModel (List Match)) : RouteResponse :=
  match inputSchemaParse content? language? with
  | none =>
      { success := false, status := 400, message := some "Invalid input",
        error := none, embedding := none, corrections := none }
  | some parsed =>
      let _lang := effectiveLang parsed.language
      if parsed.content.isEmpty then
        { success := false, status := 400,
          message := some "Content is required and must be a string.",
          error := none, embedding := none, corrections := none }
      else
        match promiseAll cohereResult ltResult with
        | Except.ok (embeddings, mts) =>
            { success := true, status := 200,
              message := some "Content analyzed successfully",
              error := none, embedding := embeddings.head?,
              corrections := some mts }
        | Except.error e =>
            { success := false, status := jsOrNat e.status 500,
              message := none,
              error := some (jsOrString e.message "Failed to connect to API"),
              embedding := none, corrections := none }

/-- The `(text, language)` body of the outbound LanguageTool call, `none`
when validation fails before the call is made (route.ts lines 55-66). -/
def analyzeLtRequest (content? language? : Option String) : Option (String × String) :=
  match inputSchemaParse content? language? with
  | none => none
  | some parsed =>
      if parsed.content.isEmpty then none
      else some (parsed.content, effectiveLang parsed.language)

/- ### Concrete data for the witness theorems -/

/-- A concrete match with exactly one candidate replacement. -/
def sampleMatch : Match :=
  { message := "Did you mean they?", shortMessage := "",
    replacements := [⟨"they"⟩], offset := 0, length := 5,
    context := ⟨"Their going to the store."⟩ }

/-- A concrete match in a different sentence, with two candidates. -/
def sampleMatch2 : Match :=
  { message := "Possible typo", shortMessage := "",
    replacements := [⟨"a"⟩, ⟨"b"⟩], offset := 30, length := 4,
    context := ⟨"Second sentence here."⟩ }

/-- The empty fixed-matches map (no key present). -/
def emptyFixedMatches : FixedMatchesMap := fun _ => false

/- ### Helper lemmas about the string primitives -/

/-- A list with a non-delimiter character splits into at least one run. -/
theorem splitRuns_ne_nil {p : Char → Bool} :
    ∀ {l : List Char}, (∃ c ∈ l, p c = false) → splitRuns p l ≠ [] := by
  intro l
  induction l with
  | nil => intro h; simp at h
  | cons c cs ih =>
    intro h
    simp only [splitRuns]
    by_cases hc : p c = true
    · rw [if_pos hc]
      obtain ⟨d, hd, hdp⟩ := h
      rcases List.mem_cons.mp hd with rfl | hdc
      · rw [hc] at hdp; cases hdp
      · exact ih ⟨d, hdc, hdp⟩
    · rw [if_neg hc]
      split
      · simp
      · split
        · simp
        · split <;> simp

/-- A non-empty trimmed string contains a non-whitespace character. -/
theorem exists_not_isJsWS {t : List Char} (h : jsTrim t ≠ []) :
    ∃ c ∈ jsTrim t, isJsWS c = false := by
  have h2 : ((t.dropWhile isJsWS).reverse.dropWhile isJsWS) ≠ [] := by
    intro he
    apply h
    unfold jsTrim
    rw [he]
    rfl
  refine ⟨((t.dropWhile isJsWS).reverse.dropWhile isJsWS).head h2, ?_, ?_⟩
  · unfold jsTrim
    rw [List.mem_reverse]
    exact List.head_mem h2
  · exact List.head_dropWhile_not isJsWS _ h2

/-- The word-token list is never empty (JS gives `[""]` on whitespace-only
input and at least one token otherwise). -/
theorem jsTrimSplitWS_ne_nil (t : List Char) : jsTrimSplitWS t ≠ [] := by
  unfold jsTrimSplitWS
  by_cases ht : jsTrim t = []
  · simp [ht]
  · simp only [if_neg ht]
    exact splitRuns_ne_nil (exists_not_isJsWS ht)

/- ### C1: finiteness of the readability score -/

/-- C1 (amended). For every text whose sentence split is non-empty,
`calculateReadabilityScore` returns a finite score, and
`getFleschReadingEase` — whose sentence count is floored at 1 — returns a
finite score for every text whatsoever, empty-sentence-split inputs
included. (`calculateReadabilityScore` itself has no floor: see
`calculateReadabilityScore_dots_not_finite`.) -/
theorem readabilityScore_finite (t : List Char) (hs : jsSentences t ≠ []) :
    (calculateReadabilityScore t).isSome = true ∧
    ∀ u : List Char, (getFleschReadingEase u).isSome = true := by
  constructor
  · have hw : jsTrimSplitWS t ≠ [] := jsTrimSplitWS_ne_nil t
    have hwl : (jsTrimSplitWS t).length ≠ 0 := by
      simpa [List.length_eq_zero] using hw
    unfold calculateReadabilityScore
    by_cases ht : jsTrim t = []
    · simp [ht]
    · have hsl : (jsSentences t).length ≠ 0 := by
        simpa [List.length_eq_zero] using hs
      simp [ht, natDiv?, hsl, hwl]
  · intro u
    have hw : jsTrimSplitWS u ≠ [] := jsTrimSplitWS_ne_nil u
    have hwl : (jsTrimSplitWS u).length ≠ 0 := by
      simpa [List.length_eq_zero] using hw
    unfold getFleschReadingEase
    by_cases hs0 : (jsSentences u).length = 0 <;>
      simp [natDiv?, hs0, hwl]

/-- C1 witness: the score of "Cat sat." is finite, and
`getFleschReadingEase` is finite on every input. -/
theorem readabilityScore_finite_witness :
    (calculateReadabilityScore "Cat sat.".data).isSome = true ∧
    ∀ u : List Char, (getFleschReadingEase u).isSome = true :=
  readabilityScore_finite ("Cat sat.".data) (by decide)

/-- C1 counterexample: "..." is non-empty and non-whitespace, yet
`calculateReadabilityScore` divides by a zero sentence count there (in JS
the score is `-Infinity`, a non-finite number). -/
theorem calculateReadabilityScore_dots_not_finite :
    jsTrim "...".data ≠ [] ∧ calculateReadabilityScore "...".data = none := by
  constructor
  · decide
  · rfl

/- ### C2: syllable count of short words -/

/-- C2 (amended). The `countSyllables` of InputContent.tsx lines 882-889
returns 1 for every word of length at most 3, returns 1 on "the" and more
than 1 on "readability"; the variant at lines 487-493
(`countSyllablesV2`) also gives 1 on "the" and more than 1 on
"readability", but it has no length rule (see `countSyllablesV2_eye`). -/
theorem countSyllables_short_word (w : List Char) (h : w.length ≤ 3) :
    countSyllables w = 1 ∧
    countSyllables "the".data = 1 ∧
    countSyllablesV2 "the".data = 1 ∧
    1 < countSyllables "readability".data ∧
    1 < countSyllablesV2 "readability".data := by
  refine ⟨?_, by decide, by decide, by decide, by decide⟩
  have hl : (w.map asciiToLower).length ≤ 3 := by simpa using h
  simp only [countSyllables]
  rw [if_pos hl]

/-- C2 witness: `countSyllables "cat" = 1` (a concrete length-3 word). -/
theorem countSyllables_short_word_witness : countSyllables "cat".data = 1 :=
  (countSyllables_short_word "cat".data (by decide)).1

/-- C2 counterexample: "eye" has length 3, yet the
`calculateReadabilityScore`-side estimator (InputContent.tsx lines
487-493) counts 2 syllables for it, not 1. -/
theorem countSyllablesV2_eye :
    "eye".data.length ≤ 3 ∧ countSyllablesV2 "eye".data = 2 := by decide

/- ### C9: qualitative readability bands -/

/-- C9. The qualitative band of a score is exactly the claimed partition
of the number line. -/
theorem getReadabilityLevel_bands (score : ℚ) :
    ((getReadabilityLevel score).level = "Very Easy" ↔ 90 ≤ score) ∧
    ((getReadabilityLevel score).level = "Easy" ↔ 80 ≤ score ∧ score < 90) ∧
    ((getReadabilityLevel score).level = "Fairly Easy" ↔ 70 ≤ score ∧ score < 80) ∧
    ((getReadabilityLevel score).level = "Standard" ↔ 60 ≤ score ∧ score < 70) ∧
    ((getReadabilityLevel score).level = "Fairly Difficult" ↔ 50 ≤ score ∧ score < 60) ∧
    ((getReadabilityLevel score).level = "Difficult" ↔ 30 ≤ score ∧ score < 50) ∧
    ((getReadabilityLevel score).level = "Very Difficult" ↔ score < 30) := by
  unfold getReadabilityLevel
  split_ifs with h1 h2 h3 h4 h5 h6 <;>
    refine ⟨?_, ?_, ?_, ?_, ?_, ?_, ?_⟩ <;>
    first
      | exact iff_of_true rfl (by constructor <;> linarith)
      | exact iff_of_true rfl (by linarith)
      | exact iff_of_false (by decide) (by rintro ⟨h7, h8⟩; linarith)
      | exact iff_of_false (by decide) (by intro h7; linarith)

/- ### The classifier as a pair of filters -/

/-- The `forEach`/`push` loop of `MatchesSep` is the pair of filters by
its condition. -/
theorem MatchesSep_eq_filter (f : FixedMatchesMap) (ms : List Match) :
    MatchesSep f ms =
      (ms.filter (fun m => m.replacements.length == 1 && !f (matchKey m)),
       ms.filter (fun m => !(m.replacements.length == 1 && !f (matchKey m)))) := by
  induction ms with
  | nil => rfl
  | cons m ms ih =>
    simp only [MatchesSep, ih, List.filter_cons]
    by_cases hc : (m.replacements.length == 1 && !f (matchKey m)) = true <;>
      simp [hc]

/- ### C3: the classification condition -/

/-- C3. A match lands in `corrections` iff it has exactly one candidate
replacement and its key is not in the fixed-matches map; every other
match lands in `suggestions`. -/
theorem matchesSep_classification (f : FixedMatchesMap) (ms : List Match) (m : Match) :
    (m ∈ (MatchesSep f ms).1 ↔
      m ∈ ms ∧ m.replacements.length = 1 ∧ f (matchKey m) = false) ∧
    (m ∈ (MatchesSep f ms).2 ↔
      m ∈ ms ∧ ¬(m.replacements.length = 1 ∧ f (matchKey m) = false)) := by
  rw [MatchesSep_eq_filter]
  constructor
  · simp [List.mem_filter, Bool.not_eq_true', and_assoc]
  · rw [List.mem_filter]
    refine and_congr_right fun _ => ?_
    cases hf : f (matchKey m) <;>
      by_cases h1 : m.replacements.length = 1 <;>
        simp [h1]

/- ### C10: the classifier partitions its input -/

/-- C10. Each bucket is a sublist of the input (the relative order within
a bucket is the input order) and every match's occurrences are split
exactly between the two buckets: none is dropped or duplicated. -/
theorem matchesSep_partition (f : FixedMatchesMap) (ms : List Match) :
    List.Sublist (MatchesSep f ms).1 ms ∧
    List.Sublist (MatchesSep f ms).2 ms ∧
    ∀ m : Match,
      (MatchesSep f ms).1.count m + (MatchesSep f ms).2.count m = ms.count m := by
  rw [MatchesSep_eq_filter]
  refine ⟨List.filter_sublist ms, List.filter_sublist ms, fun m => ?_⟩
  have h :=
    (ms.filter_append_perm
      (fun m => m.replacements.length == 1 && !f (matchKey m))).count_eq m
  simpa [List.count_append] using h

/- ### C4: applying a fix moves the match to suggestions -/

/-- C4. A match that the classifier placed in `corrections` is placed in
`suggestions` — and no longer in `corrections` — once its key is inserted
into the fixed-matches map, as `handleFix` does. -/
theorem matchesSep_moves_to_suggestions (f : FixedMatchesMap) (ms : List Match)
    (m : Match) (h : m ∈ (MatchesSep f ms).1) :
    m ∈ (MatchesSep (insertKey f (matchKey m)) ms).2 ∧
    m ∉ (MatchesSep (insertKey f (matchKey m)) ms).1 := by
  rw [MatchesSep_eq_filter] at h ⊢
  simp only [List.mem_filter] at h
  have hk : insertKey f (matchKey m) (matchKey m) = true := by simp [insertKey]
  constructor
  · simp [List.mem_filter, h.1, hk]
  · simp [List.mem_filter, hk]

/-- C4 witness: with an empty map, `sampleMatch` is a correction; after
inserting its key it is a suggestion and not a correction. -/
theorem matchesSep_moves_witness :
    sampleMatch ∈
      (MatchesSep (insertKey emptyFixedMatches (matchKey sampleMatch))
        [sampleMatch, sampleMatch2]).2 ∧
    sampleMatch ∉
      (MatchesSep (insertKey emptyFixedMatches (matchKey sampleMatch))
        [sampleMatch, sampleMatch2]).1 :=
  matchesSep_moves_to_suggestions emptyFixedMatches [sampleMatch, sampleMatch2]
    sampleMatch (by decide)

/- ### C8: determinism and idempotence -/

/-- C8. Classifying and grouping is a pure function of the match list and
the fixed-matches map — two runs on the same inputs are identical — and
re-classifying a bucket is stable: every correction stays a correction
and every suggestion a suggestion. -/
theorem classification_deterministic_idempotent (f : FixedMatchesMap) (ms : List Match) :
    ((MatchesSep f ms, joinMatches (MatchesSep f ms).1, joinMatches (MatchesSep f ms).2)
      = (MatchesSep f ms, joinMatches (MatchesSep f ms).1, joinMatches (MatchesSep f ms).2)) ∧
    MatchesSep f (MatchesSep f ms).1 = ((MatchesSep f ms).1, []) ∧
    MatchesSep f (MatchesSep f ms).2 = ([], (MatchesSep f ms).2) := by
  refine ⟨rfl, ?_, ?_⟩ <;>
    simp only [MatchesSep_eq_filter, Prod.mk.injEq] <;>
    refine ⟨?_, ?_⟩
  · exact List.filter_eq_self.mpr (fun a ha => (List.mem_filter.mp ha).2)
  · exact List.filter_eq_nil_iff.mpr
      (fun a ha => by simp [(List.mem_filter.mp ha).2])
  · exact List.filter_eq_nil_iff.mpr
      (fun a ha => by
        have := (List.mem_filter.mp ha).2
        simp only [Bool.not_eq_true'] at this
        simp [this])
  · exact List.filter_eq_self.mpr (fun a ha => (List.mem_filter.mp ha).2)

/- ### Grouping: joinMatches is first-seen grouping -/

/-- Membership in the key accumulation: a key is in the fold iff it was
already accumulated or is the context of one of the matches. -/
theorem mem_foldl_firstKeys (ms : List Match) :
    ∀ (ks : List String) (s : String),
      s ∈ ms.foldl
          (fun ks m => if m.context.text ∈ ks then ks else ks ++ [m.context.text]) ks
        ↔ s ∈ ks ∨ ∃ m ∈ ms, m.context.text = s := by
  induction ms with
  | nil => intro ks s; simp
  | cons m ms ih =>
    intro ks s
    rw [List.foldl_cons, ih]
    by_cases h : m.context.text ∈ ks
    · rw [if_pos h]
      constructor
      · rintro (hs | ⟨x, hx, rfl⟩)
        · exact Or.inl hs
        · exact Or.inr ⟨x, List.mem_cons_of_mem m hx, rfl⟩
      · rintro (hs | ⟨x, hx, rfl⟩)
        · exact Or.inl hs
        · rcases List.mem_cons.mp hx with rfl | hx2
          · exact Or.inl h
          · exact Or.inr ⟨x, hx2, rfl⟩
    · rw [if_neg h]
      constructor
      · rintro (hs | ⟨x, hx, rfl⟩)
        · rcases List.mem_append.mp hs with hs2 | hs2
          · exact Or.inl hs2
          · exact Or.inr ⟨m, List.mem_cons_self m ms, (List.mem_singleton.mp hs2).symm⟩
        · exact Or.inr ⟨x, List.mem_cons_of_mem m hx, rfl⟩
      · rintro (hs | ⟨x, hx, rfl⟩)
        · exact Or.inl (List.mem_append_left _ hs)
        · rcases List.mem_cons.mp hx with rfl | hx2
          · exact Or.inl (List.mem_append_right _ (List.mem_singleton.mpr rfl))
          · exact Or.inr ⟨x, hx2, rfl⟩

/-- A key is a first-seen key iff some match has it as context text. -/
theorem mem_firstKeys (ms : List Match) (s : String) :
    s ∈ firstKeys ms ↔ ∃ m ∈ ms, m.context.text = s := by
  rw [firstKeys, mem_foldl_firstKeys]
  simp

/-- The key accumulation only ever appends. -/
theorem foldl_firstKeys_append (ms : List Match) :
    ∀ ks : List String,
      ∃ ext,
        ms.foldl
          (fun ks m => if m.context.text ∈ ks then ks else ks ++ [m.context.text]) ks
        = ks ++ ext := by
  induction ms with
  | nil => intro ks; exact ⟨[], by simp⟩
  | cons m ms ih =>
    intro ks
    rw [List.foldl_cons]
    by_cases h : m.context.text ∈ ks
    · rw [if_pos h]; exact ih ks
    · rw [if_neg h]
      obtain ⟨ext, hext⟩ := ih (ks ++ [m.context.text])
      exact ⟨m.context.text :: ext, by simp [hext]⟩

/-- The keys of the grouping are the first-seen keys. -/
theorem groupSpec_keys (p : List Match) :
    (groupSpec p).map Prod.fst = firstKeys p := by
  have hcomp :
      (Prod.fst ∘ fun s => (s, List.filter (fun m => m.context.text == s) p)) =
        (id : String → String) := rfl
  rw [groupSpec, List.map_map, hcomp, List.map_id]

/-- One insertion step matches extending the grouped prefix by one match. -/
theorem insertJoin_groupSpec (p : List Match) (m : Match) :
    insertJoin (groupSpec p) m = groupSpec (p ++ [m]) := by
  have hkeys : firstKeys (p ++ [m]) =
      if m.context.text ∈ firstKeys p then firstKeys p
      else firstKeys p ++ [m.context.text] := by
    unfold firstKeys
    rw [List.foldl_append]
    simp
  unfold insertJoin
  rw [groupSpec_keys]
  by_cases hmem : m.context.text ∈ firstKeys p
  · have hc : (firstKeys p).contains m.context.text = true := by
      simpa [List.contains] using hmem
    rw [if_pos hc]
    unfold groupSpec
    rw [hkeys, if_pos hmem, List.map_map]
    refine List.map_congr_left fun s hs => ?_
    by_cases hsm : s = m.context.text
    · simp [Function.comp, hsm, List.filter_append, List.filter_cons]
    · simp [Function.comp, hsm, List.filter_append, List.filter_cons,
        Ne.symm hsm]
  · have hc : ¬ ((firstKeys p).contains m.context.text = true) := by
      simpa [List.contains] using hmem
    rw [if_neg hc]
    unfold groupSpec
    rw [hkeys, if_neg hmem, List.map_append]
    have hnotp : ∀ x ∈ p, x.context.text ≠ m.context.text := by
      intro x hx hxm
      exact hmem ((mem_firstKeys p m.context.text).mpr ⟨x, hx, hxm⟩)
    congr 1
    · refine List.map_congr_left fun s hs => ?_
      have hsne : m.context.text ≠ s := by
        intro he
        exact hmem (he ▸ hs)
      simp [List.filter_append, List.filter_cons, hsne]
    · have hfilnil : p.filter (fun x => x.context.text == m.context.text) = [] :=
        List.filter_eq_nil_iff.mpr
          (fun x hx => by simpa using hnotp x hx)
      simp [List.filter_append, List.filter_cons, hfilnil]

/-- The grouping loop computes `groupSpec`. -/
theorem joinMatches_eq_groupSpec (ms : List Match) :
    joinMatches ms = groupSpec ms := by
  have key : ∀ (l p : List Match), l.foldl insertJoin (groupSpec p) = groupSpec (p ++ l) := by
    intro l
    induction l with
    | nil => intro p; simp
    | cons m l ih =>
      intro p
      rw [List.foldl_cons, insertJoin_groupSpec, ih (p ++ [m])]
      simp
  have h := key ms []
  simpa [joinMatches, groupSpec, firstKeys] using h

/- ### C7: grouping preserves order -/

/-- C7. `joinMatches` groups matches by exact equality of their context
text — each group is the input's matches with that sentence, in input
order — and the sentence keys appear in first-seen order: when every
match of sentence A precedes every match of sentence B in the input, A
precedes B among the keys of the output. -/
theorem joinMatches_grouping (ms : List Match) (A B : String)
    (hA : ∃ i : Fin ms.length, (ms.get i).context.text = A)
    (hB : ∃ j : Fin ms.length, (ms.get j).context.text = B)
    (hAB : ∀ i j : Fin ms.length,
      (ms.get i).context.text = A → (ms.get j).context.text = B →
        (i : ℕ) < (j : ℕ)) :
    (∀ s g, (s, g) ∈ joinMatches ms →
        g = ms.filter (fun m => m.context.text == s)) ∧
    List.Sublist [A, B] ((joinMatches ms).map Prod.fst) := by
  constructor
  · intro s g hsg
    rw [joinMatches_eq_groupSpec] at hsg
    simp only [groupSpec, List.mem_map] at hsg
    obtain ⟨k, _, heq⟩ := hsg
    obtain ⟨rfl, rfl⟩ := Prod.mk.injEq .. ▸ heq
    rfl
  · rw [joinMatches_eq_groupSpec, groupSpec_keys]
    set p := fun m : Match => m.context.text == B with hp
    obtain ⟨jB, hjB⟩ := hB
    have hex : ∃ x ∈ ms, p x = true := by
      refine ⟨ms.get jB, List.get_mem ms jB.1 jB.2, ?_⟩
      simp only [List.get_eq_getElem] at hjB
      simp [hp, hjB]
    have hlt : ms.findIdx p < ms.length := List.findIdx_lt_length_of_exists hex
    set j0 := ms.findIdx p with hj0
    have hfB : (ms.get ⟨j0, hlt⟩).context.text = B := by
      have h2 := List.findIdx_getElem (p := p) (w := hlt)
      simpa [hp, List.get_eq_getElem] using h2
    obtain ⟨iA, hiA⟩ := hA
    have hiAlt : (iA : ℕ) < j0 := hAB iA ⟨j0, hlt⟩ hiA hfB
    have htb : (iA : ℕ) < (ms.take j0).length := by
      simp only [List.length_take, lt_min_iff]
      exact ⟨hiAlt, iA.isLt⟩
    have hAmem : ∃ m ∈ ms.take j0, m.context.text = A := by
      refine ⟨(ms.take j0).get ⟨iA.1, htb⟩, List.get_mem _ _ _, ?_⟩
      have hgt : (ms.take j0).get ⟨iA.1, htb⟩ = ms.get iA := by
        rw [List.get_eq_getElem, List.get_eq_getElem]
        exact (List.getElem_take' ms iA.isLt hiAlt).symm
      rw [hgt]
      exact hiA
    have hBnot : ∀ x ∈ ms.take j0, x.context.text ≠ B := by
      intro x hx hxB
      obtain ⟨k, hkx⟩ := List.mem_iff_get.mp hx
      have hkb := k.isLt
      simp only [List.length_take, lt_min_iff] at hkb
      have hkj : (k : ℕ) < j0 := hkb.1
      have hkml : (k : ℕ) < ms.length := hkb.2
      rw [List.get_eq_getElem] at hkx
      rw [← List.getElem_take' ms hkml hkj] at hkx
      have hkj2 : (k : ℕ) < ms.findIdx p := hkj
      have hnp := List.not_of_lt_findIdx hkj2
      rw [hkx, hp] at hnp
      simp [hxB] at hnp
    obtain ⟨ext, hext⟩ := foldl_firstKeys_append (ms.drop j0) (firstKeys (ms.take j0))
    have hfk : firstKeys ms = firstKeys (ms.take j0) ++ ext := by
      conv_lhs => rw [firstKeys, ← List.take_append_drop j0 ms, List.foldl_append]
      exact hext
    have hAin : A ∈ firstKeys (ms.take j0) := (mem_firstKeys _ A).mpr hAmem
    have hBms : B ∈ firstKeys ms :=
      (mem_firstKeys ms B).mpr ⟨ms.get jB, List.get_mem ms jB.1 jB.2, hjB⟩
    have hBnotu : B ∉ firstKeys (ms.take j0) := by
      intro hBin
      obtain ⟨x, hx, hxB⟩ := (mem_firstKeys _ B).mp hBin
      exact hBnot x hx hxB
    have hBext : B ∈ ext := by
      rw [hfk] at hBms
      rcases List.mem_append.mp hBms with h1 | h1
      · exact absurd h1 hBnotu
      · exact h1
    rw [hfk]
    exact List.Sublist.append (List.singleton_sublist.mpr hAin)
      (List.singleton_sublist.mpr hBext)

/-- C7 witness: two matches in two different sentences. -/
theorem joinMatches_grouping_witness :
    (∀ s g, (s, g) ∈ joinMatches [sampleMatch, sampleMatch2] →
        g = [sampleMatch, sampleMatch2].filter (fun m => m.context.text == s)) ∧
    List.Sublist ["Their going to the store.", "Second sentence here."]
      ((joinMatches [sampleMatch, sampleMatch2]).map Prod.fst) :=
  joinMatches_grouping [sampleMatch, sampleMatch2]
    "Their going to the store." "Second sentence here."
    (by decide) (by decide) (by decide)

/- ### C5: all-or-nothing failure of the analyze handler -/

/-- C5. When either upstream call rejects, the handler's response is an
all-or-nothing failure: success is false, no embedding and no corrections
are returned, and the HTTP status (and error message) come from the
rejected call's response when available, else 500 (and a generic
message). -/
theorem analyzePOST_upstream_failure (c l : Option String)
    (cohere : Except AxiosErrorModel (List (List ℚ)))
    (lt : Except AxiosErrorModel (List Match))
    (hparse : (inputSchemaParse c l).isSome = true)
    (hfail : (∃ e, cohere = Except.error e) ∨ (∃ e, lt = Except.error e)) :
    ∃ e : AxiosErrorModel,
      promiseAll cohere lt = Except.error e ∧
      analyzePOST c l cohere lt =
        { success := false, status := jsOrNat e.status 500,
          message := none,
          error := some (jsOrString e.message "Failed to connect to API"),
          embedding := none, corrections := none } := by
  cases c with
  | none => simp [inputSchemaParse] at hparse
  | some s =>
    by_cases hs : s.isEmpty
    · simp [inputSchemaParse, hs] at hparse
    · rcases hfail with ⟨e, he⟩ | ⟨e, he⟩
      · subst he
        refine ⟨e, ?_, ?_⟩
        · cases lt <;> rfl
        · cases lt <;> simp [analyzePOST, inputSchemaParse, hs, promiseAll]
      · subst he
        cases cohere with
        | error e2 =>
            exact ⟨e2, rfl, by simp [analyzePOST, inputSchemaParse, hs, promiseAll]⟩
        | ok v =>
            exact ⟨e, rfl, by simp [analyzePOST, inputSchemaParse, hs, promiseAll]⟩

/-- C5 witness: a rejected embedding call with upstream status 502. -/
theorem analyzePOST_upstream_failure_witness :
    ∃ e : AxiosErrorModel,
      promiseAll
          (Except.error ⟨some 502, some "Bad gateway"⟩ :
            Except AxiosErrorModel (List (List ℚ)))
          (Except.ok ([] : List Match)) = Except.error e ∧
      analyzePOST (some "Hello world") none
          (Except.error ⟨some 502, some "Bad gateway"⟩) (Except.ok []) =
        { success := false, status := jsOrNat e.status 500, message := none,
          error := some (jsOrString e.message "Failed to connect to API"),
          embedding := none, corrections := none } :=
  analyzePOST_upstream_failure (some "Hello world") none _ _ (by decide)
    (Or.inl ⟨⟨some 502, some "Bad gateway"⟩, rfl⟩)

/- ### C6: unsupported language falls back to "en" -/

/-- C6. A language outside the supported set is silently replaced by
"en": the effective language is "en", the outbound grammar-check request
equals the one an explicit "en" produces, and the handler's response is
unchanged — no error is returned for the language. An absent language
also defaults to "en". -/
theorem analyzePOST_language_fallback (c : Option String) (l : String)
    (cohere : Except AxiosErrorModel (List (List ℚ)))
    (lt : Except AxiosErrorModel (List Match))
    (h : l ∉ supportedLanguages) :
    effectiveLang (some l) = "en" ∧
    effectiveLang none = "en" ∧
    analyzeLtRequest c (some l) = analyzeLtRequest c (some "en") ∧
    analyzeLtRequest c none = analyzeLtRequest c (some "en") ∧
    analyzePOST c (some l) cohere lt = analyzePOST c (some "en") cohere lt := by
  have hc : supportedLanguages.contains l = false := by
    simpa using h
  have he : effectiveLang (some l) = "en" := by
    simp only [effectiveLang, Option.getD_some]
    rw [hc]
    simp
  have hen : effectiveLang (some "en") = "en" := by decide
  have hnone : effectiveLang none = "en" := by decide
  refine ⟨he, hnone, ?_, ?_, ?_⟩
  · cases c with
    | none => rfl
    | some s =>
      by_cases hs : s.isEmpty <;>
        simp [analyzeLtRequest, inputSchemaParse, hs, he, hen]
  · cases c with
    | none => rfl
    | some s =>
      by_cases hs : s.isEmpty <;>
        simp [analyzeLtRequest, inputSchemaParse, hs, hnone, hen]
  · cases c with
    | none => rfl
    | some s =>
      by_cases hs : s.isEmpty <;>
        simp [analyzePOST, inputSchemaParse, hs]

/-- C6 witness: the unsupported code "xx" behaves exactly like "en". -/
theorem analyzePOST_language_fallback_witness :
    effectiveLang (some "xx") = "en" ∧
    effectiveLang none = "en" ∧
    analyzeLtRequest (some "Hello world") (some "xx")
      = analyzeLtRequest (some "Hello world") (some "en") ∧
    analyzeLtRequest (some "Hello world") none
      = analyzeLtRequest (some "Hello world") (some "en") ∧
    analyzePOST (some "Hello world") (some "xx") (Except.ok [[1]]) (Except.ok [])
      = analyzePOST (some "Hello world") (some "en") (Except.ok [[1]]) (Except.ok []) :=
  analyzePOST_language_fallback (some "Hello world") "xx"
    (Except.ok [[1]]) (Except.ok []) (by decide)
